import Mathlib

/-!
Shallow embedding of `src/lib/pyfcode/fcode/__init__.py` (class `FcodeCore`
and the `code` decorator helper).

Python `dict[str, type]` is modelled as an insertion-ordered association
list `List (String × Nat)`: a Python class object is identified by a `Nat`
label (classes are compared by identity, `v is t`).  Python dict operations
are modelled faithfully:
  * `d[k] = v` (`dictSet`) overwrites in place when the key is present
    (keeping its position, as CPython dicts do) and appends otherwise;
  * `del d[k]` (`dictDel`) removes the key;
  * `k in d` (`dictContains`) is key membership;
  * `d.get(k, None)` (`dictGet?`) returns the value or `none`;
  * iteration (`items()` / `values()`) is list order = insertion order.

Methods that raise (`defcode`, `get_active_code_for_type`,
`get_all_codes_for_type`, `get_type_for_any_code`) are embedded so that the
state at the moment of the raise is returned alongside the error: `defcode`
returns `Option DefErr × FcodeCore` (the second component is the registry
state when the call finished or raised), the getters return `Except`.
Python truthiness in `if not res:` is translated exactly: `None` and the
empty string (and the empty list) are falsy.
-/

abbrev Code := String

/-- A Python class object, compared by identity. -/
abbrev Ty := Nat

/-- Python `dict[str, type]` as an insertion-ordered association list. -/
abbrev PyDict := List (Code × Ty)

/-- Python `k in d`. -/
def dictContains (d : PyDict) (k : Code) : Bool :=
  d.any (fun p => p.1 == k)

/-- Python `d.get(k, None)`. -/
def dictGet? (d : PyDict) (k : Code) : Option Ty :=
  (d.find? (fun p => p.1 == k)).map (fun p => p.2)

/-- Python `d[k] = v`: overwrite in place when present, append otherwise. -/
def dictSet (d : PyDict) (k : Code) (v : Ty) : PyDict :=
  if dictContains d k then
    d.map (fun p => if p.1 == k then (k, v) else p)
  else
    d ++ [(k, v)]

/-- Python `del d[k]`. -/
def dictDel (d : PyDict) (k : Code) : PyDict :=
  d.filter (fun p => !(p.1 == k))

/-- The mutable state of the `FcodeCore` singleton. -/
structure FcodeCore where
  active_code_to_type : PyDict
  legacy_code_to_type : PyDict
  deflock : Bool
  non_decorator_codes : List Code
deriving DecidableEq, Repr

/-- The state `FcodeCore.__init__` builds. -/
def FcodeCore.init : FcodeCore :=
  { active_code_to_type := []
    legacy_code_to_type := []
    deflock := false
    non_decorator_codes := [] }

/-- `FcodeCore.is_code_valid`: the format check is unimplemented (TODO in
the source) and accepts every string. -/
def is_code_valid (_code : Code) : Bool :=
  true

/-- The `ValueError`s the registry raises, distinguished by message. -/
inductive DefErr where
  | deflockErr
  | invalidCode (code : Code)
  | duplicateActiveCode (code : Code)
  | duplicateLegacyCode (code : Code)
deriving DecidableEq, Repr

/-- The validation loop over `legacy_codes` in `FcodeCore.defcode`: checks
each code and accumulates `legacy_codes_to_attach`; no mutation happens
during this loop. -/
def collectLegacyCodes (legacy : PyDict) : List Code → Except DefErr (List Code)
  | [] => Except.ok []
  | lc :: rest =>
    if !is_code_valid lc then
      Except.error (DefErr.invalidCode lc)
    else if dictContains legacy lc then
      Except.error (DefErr.duplicateLegacyCode lc)
    else
      (collectLegacyCodes legacy rest).map (fun l => lc :: l)

/-- `FcodeCore.defcode(code, t, legacy_codes, _is_from_decorator)`.  Returns
the raised error (if any) together with the state at the end of the call:
all raises happen before any mutation in the source, so on error the
returned state is the input state by construction of the source code (the
theorem `defcode_atomic_on_error` makes that explicit). -/
def defcode (s : FcodeCore) (code : Code) (t : Ty)
    (legacy_codes : Option (List Code)) (is_from_decorator : Bool) :
    Option DefErr × FcodeCore :=
  if s.deflock then
    (some DefErr.deflockErr, s)
  else if !is_code_valid code then
    (some (DefErr.invalidCode code), s)
  else if dictContains s.active_code_to_type code then
    (some (DefErr.duplicateActiveCode code), s)
  else
    match collectLegacyCodes s.legacy_code_to_type (legacy_codes.getD []) with
    | Except.error e => (some e, s)
    | Except.ok legacy_codes_to_attach =>
      let newLegacy :=
        legacy_codes_to_attach.foldl (fun d lc => dictSet d lc t)
          s.legacy_code_to_type
      let s₁ := { s with legacy_code_to_type := newLegacy }
      let s₂ := { s₁ with active_code_to_type := dictSet s₁.active_code_to_type code t }
      let s₃ :=
        if !is_from_decorator then
          { s₂ with non_decorator_codes := s₂.non_decorator_codes ++ [code] }
        else s₂
      (none, s₃)

/-- `FcodeCore.try_undefcode(code)`. -/
def try_undefcode (s : FcodeCore) (code : Code) : Bool × FcodeCore :=
  if s.deflock then
    (false, s)
  else if dictContains s.active_code_to_type code then
    (true, { s with active_code_to_type := dictDel s.active_code_to_type code })
  else if dictContains s.legacy_code_to_type code then
    (true, { s with legacy_code_to_type := dictDel s.legacy_code_to_type code })
  else
    (false, s)

/-- The `for c in self._non_decorator_codes` loop of
`FcodeCore.try_undef_non_decorator_codes`: `try_undefcode` never touches
the `_non_decorator_codes` list, so iterating the snapshot is faithful. -/
def undefEach (codes : List Code) (s : FcodeCore) : Bool × FcodeCore :=
  match codes with
  | [] => (true, s)
  | c :: rest =>
    match try_undefcode s c with
    | (true, s₁) => undefEach rest s₁
    | (false, s₁) => (false, s₁)

/-- `FcodeCore.try_undef_non_decorator_codes()`. -/
def try_undef_non_decorator_codes (s : FcodeCore) : Bool × FcodeCore :=
  match undefEach s.non_decorator_codes s with
  | (true, s₁) => (true, { s₁ with non_decorator_codes := [] })
  | (false, s₁) => (false, s₁)

/-- `FcodeCore.try_get_active_code_for_type(t)`: first key of the active
mapping (in insertion order) whose value is `t`. -/
def try_get_active_code_for_type (s : FcodeCore) (t : Ty) : Option Code :=
  (s.active_code_to_type.find? (fun p => p.2 == t)).map (fun p => p.1)

/-- `FcodeCore.get_active_code_for_type(t)`: raises when the `try` result
is falsy — which in Python covers both `None` and the empty string. -/
def get_active_code_for_type (s : FcodeCore) (t : Ty) : Except String Code :=
  match try_get_active_code_for_type s t with
  | none => Except.error ("active code for type " ++ toString t ++ " not found")
  | some res =>
    if res == "" then
      Except.error ("active code for type " ++ toString t ++ " not found")
    else
      Except.ok res

/-- `FcodeCore.get_all_codes_for_type(t)`: the first active code for `t`
(the loop breaks at the first hit), then every legacy code of `t` in
insertion order; raises when the active scan found nothing. -/
def get_all_codes_for_type (s : FcodeCore) (t : Ty) : Except String (List Code) :=
  match (s.active_code_to_type.find? (fun p => p.2 == t)).map (fun p => p.1) with
  | none => Except.error ("no active codes for " ++ toString t)
  | some k =>
    Except.ok (k :: (s.legacy_code_to_type.filter (fun p => p.2 == t)).map
      (fun p => p.1))

/-- `FcodeCore.get_type_for_any_code(code)`: active first, then legacy. -/
def get_type_for_any_code (s : FcodeCore) (code : Code) : Except String Ty :=
  match dictGet? s.active_code_to_type code with
  | some t => Except.ok t
  | none =>
    match dictGet? s.legacy_code_to_type code with
    | some t => Except.ok t
    | none => Except.error ("type not found for any code " ++ code)

/-- `FcodeCore.try_get_type_for_any_code(code)`. -/
def try_get_type_for_any_code (s : FcodeCore) (code : Code) : Option Ty :=
  match dictGet? s.active_code_to_type code with
  | some t => some t
  | none => dictGet? s.legacy_code_to_type code

/-- The operations that mutate the singleton: `defcode` (also reached via
the `code` decorator, with `_is_from_decorator=True`), `try_undefcode`,
`try_undef_non_decorator_codes`, and the `deflock` setter. -/
inductive Op where
  | defcodeOp (code : Code) (t : Ty) (legacy_codes : Option (List Code))
      (is_from_decorator : Bool)
  | undefcodeOp (code : Code)
  | undefNonDecoratorOp
  | setDeflockOp (value : Bool)
deriving DecidableEq, Repr

/-- Apply one mutating operation (keeping only the resulting state). -/
def applyOp (s : FcodeCore) : Op → FcodeCore
  | Op.defcodeOp c t l d => (defcode s c t l d).2
  | Op.undefcodeOp c => (try_undefcode s c).2
  | Op.undefNonDecoratorOp => (try_undef_non_decorator_codes s).2
  | Op.setDeflockOp b => { s with deflock := b }

/-- Run a sequence of operations from a state. -/
def runOps (s : FcodeCore) (ops : List Op) : FcodeCore :=
  ops.foldl applyOp s

/-- A registry state is reachable when some sequence of operations produces
it from the freshly initialized singleton. -/
def Reachable (s : FcodeCore) : Prop :=
  ∃ ops : List Op, runOps FcodeCore.init ops = s

/-- Spec-side predicate: every code appears at most once as a key within
each of the two mappings. -/
def KeysNodup (s : FcodeCore) : Prop :=
  (s.active_code_to_type.map (fun p => p.1)).Nodup ∧
    (s.legacy_code_to_type.map (fun p => p.1)).Nodup

/-- Spec-side predicate: every type that has a legacy code also has an
active code. -/
def LegacyImpliesActive (s : FcodeCore) : Prop :=
  ∀ p ∈ s.legacy_code_to_type, ∃ q ∈ s.active_code_to_type, q.2 = p.2

/-- Spec-side helper: the legacy codes of `t`, in registration order. -/
def legacyCodesFor (s : FcodeCore) (t : Ty) : List Code :=
  (s.legacy_code_to_type.filter (fun p => p.2 == t)).map (fun p => p.1)

/-- Spec-side helper: the registry state after removing each code of `l`
in order with `try_undefcode` (keeping only the states). -/
def removeAllState (s : FcodeCore) (l : List Code) : FcodeCore :=
  l.foldl (fun s c => (try_undefcode s c).2) s

/-- Scenario for C1: register `"a"` as an active code, then register
`"b"` with `"a"` as a legacy code. -/
def c1State : FcodeCore :=
  runOps FcodeCore.init
    [Op.defcodeOp "a" 1 none false, Op.defcodeOp "b" 2 (some ["a"]) false]

/-- Scenario for C2: register the empty string as an active code. -/
def c2State : FcodeCore :=
  (defcode FcodeCore.init "" 1 none false).2

/-- Scenario for C3: register the same type under two active codes. -/
def c3State : FcodeCore :=
  runOps FcodeCore.init
    [Op.defcodeOp "a" 1 none false, Op.defcodeOp "b" 1 none false]

/-- Scenario for C4: register a type with a legacy code, then remove its
active code. -/
def c4State : FcodeCore :=
  runOps FcodeCore.init
    [Op.defcodeOp "a" 1 (some ["l"]) false, Op.undefcodeOp "a"]

/-- Scenario for C9: `"a"` is an active code, `"x"` is in the
non-decorator list but in neither mapping. -/
def c9State : FcodeCore :=
  { active_code_to_type := [("a", 1)]
    legacy_code_to_type := []
    deflock := false
    non_decorator_codes := ["a", "x"] }

/-- Witness state for C3: `"a"` is registered as the active code of
type `1` through a direct call. -/
def c3WitnessState : FcodeCore :=
  { active_code_to_type := [("a", 1)]
    legacy_code_to_type := []
    deflock := false
    non_decorator_codes := ["a"] }

/-- Witness state for C5: `"b"` is already a legacy code. -/
def c5WitnessState : FcodeCore :=
  { active_code_to_type := []
    legacy_code_to_type := [("b", 2)]
    deflock := false
    non_decorator_codes := [] }

/-- Witness state for C6: `"a"` active for type `1`, `"l"` legacy for
type `2`. -/
def c6WitnessState : FcodeCore :=
  { active_code_to_type := [("a", 1)]
    legacy_code_to_type := [("l", 2)]
    deflock := false
    non_decorator_codes := [] }

/-- Witness state for C7: one directly registered code `"a"`. -/
def c7WitnessState : FcodeCore :=
  { active_code_to_type := [("a", 1)]
    legacy_code_to_type := []
    deflock := false
    non_decorator_codes := ["a"] }

/-- Witness state for C8: type `7` registered with active code `"D1"`
and legacy code `"D0"`. -/
def c8WitnessState : FcodeCore :=
  (defcode FcodeCore.init "D1" 7 (some ["D0"]) false).2

/-- Error-case witness state for C8: type `1` has a legacy code but no
active code. -/
def c8ErrState : FcodeCore :=
  { active_code_to_type := []
    legacy_code_to_type := [("l", 1)]
    deflock := false
    non_decorator_codes := [] }

/-! ### Lemmas about the dictionary model -/

theorem dictContains_false_iff {d : PyDict} {k : Code} :
    dictContains d k = false ↔ ∀ p ∈ d, p.1 ≠ k := by
  simp [dictContains]

theorem find?_key_eq_none {d : PyDict} {k : Code}
    (h : dictContains d k = false) :
    d.find? (fun p => p.1 == k) = none := by
  rw [List.find?_eq_none]
  intro p hp
  simpa using dictContains_false_iff.mp h p hp

theorem find?_append_of_none {α : Type} {p : α → Bool} {l₁ l₂ : List α}
    (h : l₁.find? p = none) : (l₁ ++ l₂).find? p = l₂.find? p := by
  induction l₁ with
  | nil => rfl
  | cons a l ih =>
    rw [List.cons_append, List.find?_cons] at *
    cases hpa : p a with
    | true => simp [hpa] at h
    | false =>
      simp only [hpa] at h ⊢
      exact ih h

theorem dictSet_of_fresh {d : PyDict} {k : Code} {v : Ty}
    (h : dictContains d k = false) : dictSet d k v = d ++ [(k, v)] := by
  simp [dictSet, h]

theorem dictGet?_append_fresh {d : PyDict} {k : Code} {v : Ty}
    (h : dictContains d k = false) : dictGet? (d ++ [(k, v)]) k = some v := by
  simp [dictGet?, find?_append_of_none (find?_key_eq_none h)]

theorem mem_dictSet {d : PyDict} {k : Code} {v : Ty} {p : Code × Ty}
    (h : p ∈ dictSet d k v) : p ∈ d ∨ p = (k, v) := by
  unfold dictSet at h
  split at h
  · rcases List.mem_map.mp h with ⟨q, hq, hfq⟩
    by_cases hqk : (q.1 == k) = true
    · right
      rw [if_pos hqk] at hfq
      exact hfq.symm
    · left
      rw [if_neg hqk] at hfq
      exact hfq ▸ hq
  · rcases List.mem_append.mp h with h' | h'
    · left; exact h'
    · right; simpa using h'

theorem mem_foldl_dictSet {lcs : List Code} {t : Ty} {d : PyDict}
    {p : Code × Ty}
    (h : p ∈ lcs.foldl (fun d lc => dictSet d lc t) d) : p ∈ d ∨ p.2 = t := by
  induction lcs generalizing d with
  | nil => left; exact h
  | cons c rest ih =>
    rcases ih h with h' | h'
    · rcases mem_dictSet h' with h'' | h''
      · left; exact h''
      · right; rw [h'']
    · right; exact h'

theorem keys_dictSet {d : PyDict} (k : Code) (v : Ty)
    (h : (d.map (fun p => p.1)).Nodup) :
    ((dictSet d k v).map (fun p => p.1)).Nodup := by
  unfold dictSet
  split
  case isTrue hc =>
    have hmap : ((d.map (fun p => if p.1 == k then (k, v) else p)).map
        (fun p => p.1)) = d.map (fun p => p.1) := by
      rw [List.map_map]
      apply List.map_congr_left
      intro p _
      by_cases hpk : (p.1 == k) = true
      · simp only [Function.comp_apply, if_pos hpk]
        exact (eq_of_beq hpk).symm
      · simp only [Function.comp_apply, if_neg hpk]
    rw [hmap]
    exact h
  case isFalse hc =>
    rw [List.map_append]
    refine h.append (List.nodup_singleton k) ?_
    intro a ha hb
    rcases List.mem_map.mp ha with ⟨p, hp, hpa⟩
    have hak : a = k := by simpa using hb
    have hcf : dictContains d k = false := by
      simpa using hc
    exact dictContains_false_iff.mp hcf p hp (hpa.trans hak)

theorem keys_foldl_dictSet (lcs : List Code) (t : Ty) (d : PyDict)
    (h : (d.map (fun p => p.1)).Nodup) :
    ((lcs.foldl (fun d lc => dictSet d lc t) d).map (fun p => p.1)).Nodup := by
  induction lcs generalizing d with
  | nil => exact h
  | cons c rest ih => exact ih _ (keys_dictSet c t h)

theorem keys_dictDel {d : PyDict} (k : Code)
    (h : (d.map (fun p => p.1)).Nodup) :
    ((dictDel d k).map (fun p => p.1)).Nodup :=
  ((List.filter_sublist d).map (fun p => p.1)).nodup h

theorem mem_dictDel {d : PyDict} {k : Code} {p : Code × Ty} :
    p ∈ dictDel d k ↔ p ∈ d ∧ p.1 ≠ k := by
  simp [dictDel, List.mem_filter]

theorem dictContains_dictDel_self {d : PyDict} {k : Code} :
    dictContains (dictDel d k) k = false := by
  rw [dictContains_false_iff]
  intro p hp
  exact (mem_dictDel.mp hp).2

theorem dictSet_append_self {d : PyDict} {k : Code} {v w : Ty}
    (h : dictContains d k = false) :
    dictSet (d ++ [(k, v)]) k w = d ++ [(k, w)] := by
  have hc : dictContains (d ++ [(k, v)]) k = true := by
    simp [dictContains]
  unfold dictSet
  rw [if_pos hc, List.map_append]
  congr 1
  · conv_rhs => rw [← List.map_id d]
    apply List.map_congr_left
    intro p hp
    have hne : (p.1 == k) = false := by
      simpa using dictContains_false_iff.mp h p hp
    simp [hne]
  · simp

/-! ### Branch characterizations of `defcode` -/

theorem defcode_of_deflock {s : FcodeCore} {code : Code} {t : Ty}
    {l : Option (List Code)} {d : Bool} (h : s.deflock = true) :
    defcode s code t l d = (some DefErr.deflockErr, s) := by
  simp [defcode, h]

theorem defcode_of_dup_active {s : FcodeCore} {code : Code} {t : Ty}
    {l : Option (List Code)} {d : Bool}
    (hlock : s.deflock = false)
    (hact : dictContains s.active_code_to_type code = true) :
    defcode s code t l d = (some (DefErr.duplicateActiveCode code), s) := by
  simp [defcode, hlock, hact, is_code_valid]

theorem defcode_of_collect_error {s : FcodeCore} {code : Code} {t : Ty}
    {l : Option (List Code)} {d : Bool} {e : DefErr}
    (hlock : s.deflock = false)
    (hact : dictContains s.active_code_to_type code = false)
    (hcol : collectLegacyCodes s.legacy_code_to_type (l.getD []) =
      Except.error e) :
    defcode s code t l d = (some e, s) := by
  simp [defcode, hlock, hact, hcol, is_code_valid]

theorem defcode_of_collect_ok {s : FcodeCore} {code : Code} {t : Ty}
    {l : Option (List Code)} {d : Bool} {lcs : List Code}
    (hlock : s.deflock = false)
    (hact : dictContains s.active_code_to_type code = false)
    (hcol : collectLegacyCodes s.legacy_code_to_type (l.getD []) =
      Except.ok lcs) :
    defcode s code t l d =
      (none,
        { s with
          active_code_to_type := dictSet s.active_code_to_type code t
          legacy_code_to_type :=
            lcs.foldl (fun d lc => dictSet d lc t) s.legacy_code_to_type
          non_decorator_codes :=
            if d then s.non_decorator_codes
            else s.non_decorator_codes ++ [code] }) := by
  cases d <;> simp [defcode, hlock, hact, hcol, is_code_valid]

theorem collectLegacyCodes_of_fresh {legacy : PyDict} {l : List Code}
    (h : ∀ c ∈ l, dictContains legacy c = false) :
    collectLegacyCodes legacy l = Except.ok l := by
  induction l with
  | nil => rfl
  | cons c rest ih =>
    have hc : dictContains legacy c = false := h c (List.mem_cons_self c rest)
    have hrest := ih (fun c hc => h c (List.mem_cons_of_mem _ hc))
    simp [collectLegacyCodes, is_code_valid, hc, hrest, Except.map]

theorem defcode_snd_of_error {s : FcodeCore} {code : Code} {t : Ty}
    {l : Option (List Code)} {d : Bool} {e : DefErr}
    (h : (defcode s code t l d).1 = some e) : (defcode s code t l d).2 = s := by
  by_cases hlock : s.deflock = true
  · rw [defcode_of_deflock hlock]
  · have hlock' : s.deflock = false := by simpa using hlock
    by_cases hact : dictContains s.active_code_to_type code = true
    · rw [defcode_of_dup_active hlock' hact]
    · have hact' : dictContains s.active_code_to_type code = false := by
        simpa using hact
      cases hcol : collectLegacyCodes s.legacy_code_to_type (l.getD []) with
      | error e' => rw [defcode_of_collect_error hlock' hact' hcol]
      | ok lcs =>
        rw [defcode_of_collect_ok hlock' hact' hcol] at h
        simp at h

theorem defcode_rcases (s : FcodeCore) (code : Code) (t : Ty)
    (l : Option (List Code)) (d : Bool) :
    (∃ e, defcode s code t l d = (some e, s)) ∨
    (∃ lcs, s.deflock = false ∧
      dictContains s.active_code_to_type code = false ∧
      collectLegacyCodes s.legacy_code_to_type (l.getD []) = Except.ok lcs ∧
      defcode s code t l d =
        (none,
          { s with
            active_code_to_type := dictSet s.active_code_to_type code t
            legacy_code_to_type :=
              lcs.foldl (fun d lc => dictSet d lc t) s.legacy_code_to_type
            non_decorator_codes :=
              if d then s.non_decorator_codes
              else s.non_decorator_codes ++ [code] })) := by
  by_cases hlock : s.deflock = true
  · exact Or.inl ⟨_, defcode_of_deflock hlock⟩
  · have hlock' : s.deflock = false := by simpa using hlock
    by_cases hact : dictContains s.active_code_to_type code = true
    · exact Or.inl ⟨_, defcode_of_dup_active hlock' hact⟩
    · have hact' : dictContains s.active_code_to_type code = false := by
        simpa using hact
      cases hcol : collectLegacyCodes s.legacy_code_to_type (l.getD []) with
      | error e => exact Or.inl ⟨_, defcode_of_collect_error hlock' hact' hcol⟩
      | ok lcs =>
        exact Or.inr ⟨lcs, hlock', hact', rfl,
          defcode_of_collect_ok hlock' hact' hcol⟩

/-! ### Preservation of key uniqueness within each mapping -/

theorem keysNodup_defcode (s : FcodeCore) (code : Code) (t : Ty)
    (l : Option (List Code)) (d : Bool) (h : KeysNodup s) :
    KeysNodup (defcode s code t l d).2 := by
  rcases defcode_rcases s code t l d with ⟨e, heq⟩ | ⟨lcs, _, _, _, heq⟩
  · rw [heq]; exact h
  · rw [heq]
    exact ⟨keys_dictSet code t h.1, keys_foldl_dictSet lcs t _ h.2⟩

theorem keysNodup_try_undefcode (s : FcodeCore) (c : Code)
    (h : KeysNodup s) : KeysNodup (try_undefcode s c).2 := by
  unfold try_undefcode
  split_ifs
  · exact h
  · exact ⟨keys_dictDel c h.1, h.2⟩
  · exact ⟨h.1, keys_dictDel c h.2⟩
  · exact h

theorem keysNodup_undefEach (l : List Code) (s : FcodeCore)
    (h : KeysNodup s) : KeysNodup (undefEach l s).2 := by
  induction l generalizing s with
  | nil => exact h
  | cons c rest ih =>
    rcases h₁ : try_undefcode s c with ⟨b, s₁⟩
    have hs₁ : KeysNodup s₁ := by
      have h₂ := keysNodup_try_undefcode s c h
      rw [h₁] at h₂
      exact h₂
    cases b
    · simpa [undefEach, h₁] using hs₁
    · simpa [undefEach, h₁] using ih s₁ hs₁

theorem keysNodup_try_undef_non_decorator_codes (s : FcodeCore)
    (h : KeysNodup s) : KeysNodup (try_undef_non_decorator_codes s).2 := by
  unfold try_undef_non_decorator_codes
  rcases h₁ : undefEach s.non_decorator_codes s with ⟨b, s₁⟩
  have hs₁ : KeysNodup s₁ := by
    have h₂ := keysNodup_undefEach s.non_decorator_codes s h
    rw [h₁] at h₂
    exact h₂
  cases b
  · exact hs₁
  · exact hs₁

theorem keysNodup_applyOp (s : FcodeCore) (op : Op) (h : KeysNodup s) :
    KeysNodup (applyOp s op) := by
  cases op with
  | defcodeOp c t l d => exact keysNodup_defcode s c t l d h
  | undefcodeOp c => exact keysNodup_try_undefcode s c h
  | undefNonDecoratorOp => exact keysNodup_try_undef_non_decorator_codes s h
  | setDeflockOp b => exact h

theorem keysNodup_runOps (ops : List Op) (s : FcodeCore) (h : KeysNodup s) :
    KeysNodup (runOps s ops) := by
  induction ops generalizing s with
  | nil => exact h
  | cons op rest ih => exact ih (applyOp s op) (keysNodup_applyOp s op h)

/-! ### `defcode` preserves the legacy-implies-active property -/

theorem lia_defcode (s : FcodeCore) (code : Code) (t : Ty)
    (l : Option (List Code)) (d : Bool) (h : LegacyImpliesActive s) :
    LegacyImpliesActive (defcode s code t l d).2 := by
  rcases defcode_rcases s code t l d with ⟨e, heq⟩ | ⟨lcs, _, hact, _, heq⟩
  · rw [heq]; exact h
  · rw [heq]
    intro p hp
    have hset : dictSet s.active_code_to_type code t =
        s.active_code_to_type ++ [(code, t)] := dictSet_of_fresh hact
    rcases mem_foldl_dictSet hp with hmem | hval
    · rcases h p hmem with ⟨q, hq, hqt⟩
      refine ⟨q, ?_, hqt⟩
      show q ∈ dictSet s.active_code_to_type code t
      rw [hset]
      exact List.mem_append_left _ hq
    · refine ⟨(code, t), ?_, hval.symm⟩
      show (code, t) ∈ dictSet s.active_code_to_type code t
      rw [hset]
      exact List.mem_append_right _ (List.mem_singleton.mpr rfl)

/-! ### Lemmas about removal -/

theorem try_undefcode_ndc (s : FcodeCore) (c : Code) :
    ((try_undefcode s c).2).non_decorator_codes = s.non_decorator_codes := by
  unfold try_undefcode
  split_ifs <;> rfl

theorem try_undefcode_deflock (s : FcodeCore) (c : Code) :
    ((try_undefcode s c).2).deflock = s.deflock := by
  unfold try_undefcode
  split_ifs <;> rfl

theorem try_undefcode_of_false {s : FcodeCore} {c : Code}
    (h : (try_undefcode s c).1 = false) : (try_undefcode s c).2 = s := by
  unfold try_undefcode at *
  split_ifs at * <;> simp_all

theorem undefEach_ndc (l : List Code) (s : FcodeCore) :
    ((undefEach l s).2).non_decorator_codes = s.non_decorator_codes := by
  induction l generalizing s with
  | nil => rfl
  | cons c rest ih =>
    rcases h : try_undefcode s c with ⟨b, s₁⟩
    have hndc : s₁.non_decorator_codes = s.non_decorator_codes := by
      have h₂ := try_undefcode_ndc s c
      rw [h] at h₂
      exact h₂
    cases b
    · simp [undefEach, h, hndc]
    · simp [undefEach, h, ih s₁, hndc]

theorem undefEach_of_true {l : List Code} {s : FcodeCore}
    (h : (undefEach l s).1 = true) : (undefEach l s).2 = removeAllState s l := by
  induction l generalizing s with
  | nil => rfl
  | cons c rest ih =>
    rcases h₁ : try_undefcode s c with ⟨b, s₁⟩
    cases b
    · rw [undefEach, h₁] at h
      simp at h
    · rw [undefEach, h₁] at h ⊢
      rw [removeAllState, List.foldl_cons, h₁]
      exact ih h

theorem ndc_update_self (s : FcodeCore) (h : s.non_decorator_codes = []) :
    { s with non_decorator_codes := ([] : List Code) } = s := by
  cases s
  simp_all

theorem tundc_char (s : FcodeCore) :
    (∃ s₁, undefEach s.non_decorator_codes s = (true, s₁) ∧
      try_undef_non_decorator_codes s =
        (true, { s₁ with non_decorator_codes := ([] : List Code) })) ∨
    (∃ s₁, undefEach s.non_decorator_codes s = (false, s₁) ∧
      try_undef_non_decorator_codes s = (false, s₁)) := by
  cases h₁ : undefEach s.non_decorator_codes s with
  | mk b s₁ =>
    cases b
    · right
      exact ⟨s₁, rfl, by unfold try_undef_non_decorator_codes; rw [h₁]⟩
    · left
      exact ⟨s₁, rfl, by unfold try_undef_non_decorator_codes; rw [h₁]⟩

theorem tundc_true_ndc {s : FcodeCore}
    (h : (try_undef_non_decorator_codes s).1 = true) :
    ((try_undef_non_decorator_codes s).2).non_decorator_codes = [] := by
  rcases tundc_char s with ⟨s₁, _, h₂⟩ | ⟨s₁, _, h₂⟩
  · rw [h₂]
  · rw [h₂] at h
    exact absurd h Bool.false_ne_true

theorem tundc_true_state {s : FcodeCore}
    (h : (try_undef_non_decorator_codes s).1 = true) :
    (try_undef_non_decorator_codes s).2 =
      { removeAllState s s.non_decorator_codes with
        non_decorator_codes := ([] : List Code) } := by
  rcases tundc_char s with ⟨s₁, h₁, h₂⟩ | ⟨s₁, h₁, h₂⟩
  · have h₃ : (undefEach s.non_decorator_codes s).2 =
        removeAllState s s.non_decorator_codes :=
      undefEach_of_true (by rw [h₁])
    rw [h₁] at h₃
    have h₄ : s₁ = removeAllState s s.non_decorator_codes := h₃
    rw [h₂, h₄]
  · rw [h₂] at h
    exact absurd h Bool.false_ne_true

theorem tundc_false_char {s : FcodeCore}
    (h : (try_undef_non_decorator_codes s).1 = false) :
    (try_undef_non_decorator_codes s).2 = (undefEach s.non_decorator_codes s).2 ∧
      (undefEach s.non_decorator_codes s).1 = false := by
  rcases tundc_char s with ⟨s₁, h₁, h₂⟩ | ⟨s₁, h₁, h₂⟩
  · rw [h₂] at h
    exact absurd h.symm Bool.false_ne_true
  · rw [h₂, h₁]
    exact ⟨rfl, rfl⟩

theorem tundc_on_empty {s : FcodeCore} (h : s.non_decorator_codes = []) :
    try_undef_non_decorator_codes s = (true, s) := by
  unfold try_undef_non_decorator_codes
  rw [h]
  simp [undefEach, ndc_update_self s h]

theorem undefEach_false_decomp {l : List Code} {s : FcodeCore}
    (h : (undefEach l s).1 = false) :
    ∃ pre c post, l = pre ++ c :: post ∧
      undefEach pre s = (true, removeAllState s pre) ∧
      (try_undefcode (removeAllState s pre) c).1 = false ∧
      (undefEach l s).2 = removeAllState s pre := by
  induction l generalizing s with
  | nil => simp [undefEach] at h
  | cons c rest ih =>
    rcases h₁ : try_undefcode s c with ⟨b, s₁⟩
    cases b
    · refine ⟨[], c, rest, rfl, rfl, ?_, ?_⟩
      · rw [removeAllState, List.foldl_nil, h₁]
      · have hs : s₁ = s := by
          have h₂ := try_undefcode_of_false (s := s) (c := c) (by rw [h₁])
          rw [h₁] at h₂
          exact h₂
        rw [undefEach, h₁, removeAllState, List.foldl_nil, hs]
    · rw [undefEach, h₁] at h
      rcases ih h with ⟨pre, c', post, hl, htrue, hfail, hstate⟩
      have hstep : ∀ pr, removeAllState s (c :: pr) = removeAllState s₁ pr := by
        intro pr
        simp [removeAllState, h₁]
      refine ⟨c :: pre, c', post, by simp [hl], ?_, ?_, ?_⟩
      · simp only [undefEach, h₁]
        rw [htrue, hstep]
      · rw [hstep]
        exact hfail
      · simp only [undefEach, h₁]
        rw [hstate, hstep]

/-! ### Lookup helper lemmas -/

theorem get_type_of_active {s' : FcodeCore} {c : Code} {t : Ty}
    (h : dictGet? s'.active_code_to_type c = some t) :
    get_type_for_any_code s' c = Except.ok t := by
  unfold get_type_for_any_code
  rw [h]

theorem get_active_of_try_some {s' : FcodeCore} {t : Ty} {c : Code}
    (h : try_get_active_code_for_type s' t = some c) (hne : c ≠ "") :
    get_active_code_for_type s' t = Except.ok c := by
  unfold get_active_code_for_type
  rw [h]
  simp [hne]

/-! ## Claim theorems -/

/-- C1 counterexample: the claimed invariant "a code appears in at most
one of the two mappings" fails on a reachable state: after registering
`"a"` as an active code and then registering `"b"` with legacy code
`"a"`, the code `"a"` is a key of both mappings, because `defcode`
checks the active code only against the active mapping and legacy codes
only against the legacy mapping. -/
theorem c1_code_in_both_mappings :
    Reachable c1State ∧
      dictContains c1State.active_code_to_type "a" = true ∧
      dictContains c1State.legacy_code_to_type "a" = true :=
  ⟨⟨[Op.defcodeOp "a" 1 none false, Op.defcodeOp "b" 2 (some ["a"]) false],
    rfl⟩, by decide, by decide⟩

/-- C1 amended: in every reachable registry state each code appears at
most once as a key of the active mapping and at most once as a key of
the legacy mapping; exclusivity across the two mappings is not
maintained (see the counterexample). -/
theorem c1_keys_unique_within_each_mapping (s : FcodeCore)
    (h : Reachable s) : KeysNodup s := by
  rcases h with ⟨ops, rfl⟩
  exact keysNodup_runOps ops FcodeCore.init ⟨List.nodup_nil, List.nodup_nil⟩

/-- Witness for the amended C1 at a concrete reachable state. -/
theorem c1_keys_unique_witness :
    Reachable FcodeCore.init ∧ KeysNodup FcodeCore.init :=
  ⟨⟨[], rfl⟩, c1_keys_unique_within_each_mapping FcodeCore.init ⟨[], rfl⟩⟩

/-- C2 counterexample: the empty string passes the (unimplemented)
validity check and registers successfully, and `get_type_for_any_code`
then resolves it, but `get_active_code_for_type` raises anyway: the
Python truthiness test `if not res` treats the empty string like
`None`. -/
theorem c2_empty_code_fails_active_lookup :
    (defcode FcodeCore.init "" 1 none false).1 = none ∧
      get_type_for_any_code c2State "" = Except.ok 1 ∧
      get_active_code_for_type c2State 1 =
        Except.error "active code for type 1 not found" :=
  ⟨rfl, rfl, rfl⟩

/-- C2 amended: for every nonempty valid code `c` and a registry where
`c` is in neither mapping and `t` has no active code, a successful
`defcode c t` makes `get_type_for_any_code c` return `t` and
`get_active_code_for_type t` return `c`; for the empty string the
type lookup still succeeds but the active-code lookup raises (see the
counterexample). -/
theorem c2_register_lookup_roundtrip (s : FcodeCore) (c : Code) (t : Ty)
    (hlock : s.deflock = false)
    (hact : dictContains s.active_code_to_type c = false)
    (_hleg : dictContains s.legacy_code_to_type c = false)
    (hty : try_get_active_code_for_type s t = none)
    (hne : c ≠ "") :
    (defcode s c t none false).1 = none ∧
      get_type_for_any_code (defcode s c t none false).2 c = Except.ok t ∧
      get_active_code_for_type (defcode s c t none false).2 t = Except.ok c := by
  have hcol : collectLegacyCodes s.legacy_code_to_type
      ((none : Option (List Code)).getD []) = Except.ok ([] : List Code) := rfl
  have hset : dictSet s.active_code_to_type c t =
      s.active_code_to_type ++ [(c, t)] := dictSet_of_fresh hact
  have hfind : s.active_code_to_type.find? (fun p => p.2 == t) = none := by
    unfold try_get_active_code_for_type at hty
    exact Option.map_eq_none'.mp hty
  rw [defcode_of_collect_ok hlock hact hcol]
  refine ⟨rfl, ?_, ?_⟩
  · refine get_type_of_active ?_
    change dictGet? (dictSet s.active_code_to_type c t) c = some t
    rw [hset]
    exact dictGet?_append_fresh hact
  · refine get_active_of_try_some ?_ hne
    change ((dictSet s.active_code_to_type c t).find?
      (fun p => p.2 == t)).map (fun p => p.1) = some c
    rw [hset, find?_append_of_none hfind]
    simp

/-- Witness for the amended C2 at a concrete input. -/
theorem c2_register_lookup_roundtrip_witness :
    (defcode FcodeCore.init "d1" 1 none false).1 = none ∧
      get_type_for_any_code (defcode FcodeCore.init "d1" 1 none false).2 "d1" =
        Except.ok 1 ∧
      get_active_code_for_type (defcode FcodeCore.init "d1" 1 none false).2 1 =
        Except.ok "d1" :=
  c2_register_lookup_roundtrip FcodeCore.init "d1" 1 rfl rfl rfl rfl
    (by decide)

/-- C3 counterexample: two successful registrations give type `1` two
active codes, so "exactly one active code per type in every reachable
state" fails; `defcode` never checks whether the type is already
registered. -/
theorem c3_two_active_codes_for_one_type :
    Reachable c3State ∧
      (c3State.active_code_to_type.filter (fun p => p.2 == 1)).length = 2 :=
  ⟨⟨[Op.defcodeOp "a" 1 none false, Op.defcodeOp "b" 1 none false], rfl⟩,
    by decide⟩

/-- C3 amended: registration enforces uniqueness of the code (a
duplicate active code is rejected with the state unchanged), not
uniqueness of the active code per type: with a fresh code, registration
succeeds even when the type already has an active code. -/
theorem c3_register_enforces_code_uniqueness_only (s : FcodeCore)
    (code : Code) (t : Ty) (l : Option (List Code)) (d : Bool)
    (hlock : s.deflock = false) :
    (dictContains s.active_code_to_type code = true →
      defcode s code t l d = (some (DefErr.duplicateActiveCode code), s)) ∧
    (dictContains s.active_code_to_type code = false →
      (defcode s code t none d).1 = none) := by
  constructor
  · intro hact
    exact defcode_of_dup_active hlock hact
  · intro hact
    have hcol : collectLegacyCodes s.legacy_code_to_type
        ((none : Option (List Code)).getD []) = Except.ok ([] : List Code) := rfl
    rw [defcode_of_collect_ok hlock hact hcol]

/-- Witness for the amended C3: rejecting a duplicate code, and
accepting a second code for an already-registered type. -/
theorem c3_register_enforces_code_uniqueness_only_witness :
    defcode c3WitnessState "a" 2 none false =
      (some (DefErr.duplicateActiveCode "a"), c3WitnessState) ∧
    (defcode c3WitnessState "b" 1 none false).1 = none :=
  ⟨(c3_register_enforces_code_uniqueness_only c3WitnessState "a" 2 none false
      rfl).1 (by decide),
   (c3_register_enforces_code_uniqueness_only c3WitnessState "b" 1 none false
      rfl).2 (by decide)⟩

/-- C4 counterexample: after registering type `1` with active code
`"a"` and legacy code `"l"`, removing `"a"` with `try_undefcode` leaves
the legacy code behind: a reachable state holds a legacy code for a
type with no active code. -/
theorem c4_orphaned_legacy_code :
    Reachable c4State ∧
      dictGet? c4State.legacy_code_to_type "l" = some 1 ∧
      try_get_active_code_for_type c4State 1 = none :=
  ⟨⟨[Op.defcodeOp "a" 1 (some ["l"]) false, Op.undefcodeOp "a"], rfl⟩,
    by decide, by decide⟩

/-- C4 amended: `defcode` preserves "every type with a legacy code has
an active code" (legacy codes are only added together with an active
code for the same type), but `try_undefcode` of an active code does not
remove the type's legacy codes, so the property fails on reachable
states (see the counterexample). -/
theorem c4_defcode_preserves_legacy_implies_active (s : FcodeCore)
    (code : Code) (t : Ty) (l : Option (List Code)) (d : Bool)
    (h : LegacyImpliesActive s) :
    LegacyImpliesActive (defcode s code t l d).2 :=
  lia_defcode s code t l d h

/-- Witness for the amended C4 at a concrete registration. -/
theorem c4_defcode_preserves_legacy_implies_active_witness :
    LegacyImpliesActive FcodeCore.init ∧
      LegacyImpliesActive (defcode FcodeCore.init "a" 1 (some ["l"]) false).2 :=
  have h0 : LegacyImpliesActive FcodeCore.init := fun p hp =>
    absurd hp (List.not_mem_nil p)
  ⟨h0, c4_defcode_preserves_legacy_implies_active FcodeCore.init "a" 1
    (some ["l"]) false h0⟩

/-- C5: `defcode` is atomic on failure: whenever it raises (deflock,
invalid code, duplicate active code, or invalid/duplicate legacy code),
the registry state after the call equals the state before it; all raises
happen before any mutation. -/
theorem c5_defcode_atomic_on_error (s : FcodeCore) (code : Code) (t : Ty)
    (l : Option (List Code)) (d : Bool) (e : DefErr)
    (h : (defcode s code t l d).1 = some e) :
    (defcode s code t l d).2 = s :=
  defcode_snd_of_error h

/-- Witness for C5: a duplicate legacy code in the middle of the list
aborts the whole call and leaves the state unchanged. -/
theorem c5_defcode_atomic_on_error_witness :
    (defcode c5WitnessState "a" 1 (some ["x", "b"]) false).1 =
      some (DefErr.duplicateLegacyCode "b") ∧
    (defcode c5WitnessState "a" 1 (some ["x", "b"]) false).2 = c5WitnessState :=
  ⟨by decide,
   c5_defcode_atomic_on_error c5WitnessState "a" 1 (some ["x", "b"]) false
     (DefErr.duplicateLegacyCode "b") (by decide)⟩

/-- C6: `try_undefcode` returns false without effect when the registry
is locked; when unlocked it removes the code from the active mapping if
present there (otherwise from the legacy mapping if present there),
leaving everything else unchanged, and returns true; when the code is in
neither mapping it returns false without effect. -/
theorem c6_try_undefcode_spec (s : FcodeCore) (c : Code) :
    (s.deflock = true → try_undefcode s c = (false, s)) ∧
    (s.deflock = false → dictContains s.active_code_to_type c = true →
      (try_undefcode s c).1 = true ∧
      dictContains ((try_undefcode s c).2).active_code_to_type c = false ∧
      (∀ p, p ∈ ((try_undefcode s c).2).active_code_to_type ↔
        p ∈ s.active_code_to_type ∧ p.1 ≠ c) ∧
      ((try_undefcode s c).2).legacy_code_to_type = s.legacy_code_to_type ∧
      ((try_undefcode s c).2).deflock = s.deflock ∧
      ((try_undefcode s c).2).non_decorator_codes = s.non_decorator_codes) ∧
    (s.deflock = false → dictContains s.active_code_to_type c = false →
      dictContains s.legacy_code_to_type c = true →
      (try_undefcode s c).1 = true ∧
      dictContains ((try_undefcode s c).2).legacy_code_to_type c = false ∧
      (∀ p, p ∈ ((try_undefcode s c).2).legacy_code_to_type ↔
        p ∈ s.legacy_code_to_type ∧ p.1 ≠ c) ∧
      ((try_undefcode s c).2).active_code_to_type = s.active_code_to_type ∧
      ((try_undefcode s c).2).deflock = s.deflock ∧
      ((try_undefcode s c).2).non_decorator_codes = s.non_decorator_codes) ∧
    (s.deflock = false → dictContains s.active_code_to_type c = false →
      dictContains s.legacy_code_to_type c = false →
      try_undefcode s c = (false, s)) := by
  refine ⟨?_, ?_, ?_, ?_⟩
  · intro h
    simp [try_undefcode, h]
  · intro hlock hact
    have heq : try_undefcode s c =
        (true, { s with
          active_code_to_type := dictDel s.active_code_to_type c }) := by
      simp [try_undefcode, hlock, hact]
    rw [heq]
    exact ⟨rfl, dictContains_dictDel_self, fun p => mem_dictDel, rfl, rfl, rfl⟩
  · intro hlock hact hleg
    have heq : try_undefcode s c =
        (true, { s with
          legacy_code_to_type := dictDel s.legacy_code_to_type c }) := by
      simp [try_undefcode, hlock, hact, hleg]
    rw [heq]
    exact ⟨rfl, dictContains_dictDel_self, fun p => mem_dictDel, rfl, rfl, rfl⟩
  · intro hlock hact hleg
    simp [try_undefcode, hlock, hact, hleg]

/-- Witness for C6: removing an active code, and the locked case. -/
theorem c6_try_undefcode_spec_witness :
    (try_undefcode c6WitnessState "a").1 = true ∧
      dictContains ((try_undefcode c6WitnessState "a").2).active_code_to_type
        "a" = false ∧
      try_undefcode { c6WitnessState with deflock := true } "z" =
        (false, { c6WitnessState with deflock := true }) :=
  ⟨((c6_try_undefcode_spec c6WitnessState "a").2.1 rfl (by decide)).1,
   ((c6_try_undefcode_spec c6WitnessState "a").2.1 rfl (by decide)).2.1,
   (c6_try_undefcode_spec { c6WitnessState with deflock := true } "z").1 rfl⟩

/-- C7: `try_undef_non_decorator_codes` leaves the non-decorator list
unmodified when it returns false; on success it has removed exactly the
listed codes and cleared the list; a second call right after a
successful one succeeds trivially; and the list receives exactly the
codes of successful non-decorator `defcode` calls (decorator calls never
touch it). -/
theorem c7_clear_non_decorator_spec (s : FcodeCore) :
    ((try_undef_non_decorator_codes s).1 = false →
      ((try_undef_non_decorator_codes s).2).non_decorator_codes =
        s.non_decorator_codes) ∧
    ((try_undef_non_decorator_codes s).1 = true →
      (try_undef_non_decorator_codes s).2 =
        { removeAllState s s.non_decorator_codes with
          non_decorator_codes := ([] : List Code) }) ∧
    ((try_undef_non_decorator_codes s).1 = true →
      try_undef_non_decorator_codes ((try_undef_non_decorator_codes s).2) =
        (true, (try_undef_non_decorator_codes s).2)) ∧
    (∀ c t l, ((defcode s c t l true).2).non_decorator_codes =
      s.non_decorator_codes) ∧
    (∀ c t l, (defcode s c t l false).1 = none →
      ((defcode s c t l false).2).non_decorator_codes =
        s.non_decorator_codes ++ [c]) := by
  refine ⟨?_, ?_, ?_, ?_, ?_⟩
  · intro h
    rcases tundc_false_char h with ⟨h₂, _⟩
    rw [h₂, undefEach_ndc]
  · intro h
    exact tundc_true_state h
  · intro h
    exact tundc_on_empty (tundc_true_ndc h)
  · intro c t l
    rcases defcode_rcases s c t l true with ⟨e, heq⟩ | ⟨lcs, _, _, _, heq⟩
    · rw [heq]
    · rw [heq]
      simp
  · intro c t l hnone
    rcases defcode_rcases s c t l false with ⟨e, heq⟩ | ⟨lcs, _, _, _, heq⟩
    · rw [heq] at hnone
      exact Option.noConfusion hnone
    · rw [heq]
      simp

/-- Witness for C7: a successful clear and the trivially successful
second call. -/
theorem c7_clear_non_decorator_spec_witness :
    (try_undef_non_decorator_codes c7WitnessState).2 =
      { removeAllState c7WitnessState c7WitnessState.non_decorator_codes with
        non_decorator_codes := ([] : List Code) } ∧
    try_undef_non_decorator_codes
        ((try_undef_non_decorator_codes c7WitnessState).2) =
      (true, (try_undef_non_decorator_codes c7WitnessState).2) :=
  ⟨(c7_clear_non_decorator_spec c7WitnessState).2.1 (by decide),
   (c7_clear_non_decorator_spec c7WitnessState).2.2.1 (by decide)⟩

/-- C8: `get_all_codes_for_type` returns the type's active code followed
by all of its legacy codes in registration (insertion) order, and raises
when the type has no active code, no matter whether legacy codes for it
exist. -/
theorem c8_get_all_codes_for_type_spec (s : FcodeCore) (t : Ty) :
    (∀ a, try_get_active_code_for_type s t = some a →
      get_all_codes_for_type s t = Except.ok (a :: legacyCodesFor s t)) ∧
    (try_get_active_code_for_type s t = none →
      get_all_codes_for_type s t =
        Except.error ("no active codes for " ++ toString t)) := by
  constructor
  · intro a ha
    unfold try_get_active_code_for_type at ha
    unfold get_all_codes_for_type
    rw [ha]
    rfl
  · intro ha
    unfold try_get_active_code_for_type at ha
    unfold get_all_codes_for_type
    rw [ha]

/-- Witness for C8: the Dog scenario (`"D1"` active, `"D0"` legacy) and
the error case where only a legacy code exists. -/
theorem c8_get_all_codes_for_type_spec_witness :
    try_get_active_code_for_type c8WitnessState 7 = some "D1" ∧
      get_all_codes_for_type c8WitnessState 7 =
        Except.ok ("D1" :: legacyCodesFor c8WitnessState 7) ∧
      legacyCodesFor c8WitnessState 7 = ["D0"] ∧
      get_all_codes_for_type c8ErrState 1 =
        Except.error ("no active codes for " ++ toString 1) ∧
      c8ErrState.legacy_code_to_type ≠ [] :=
  ⟨by decide,
   (c8_get_all_codes_for_type_spec c8WitnessState 7).1 "D1" (by decide),
   by decide,
   (c8_get_all_codes_for_type_spec c8ErrState 1).2 (by decide),
   by decide⟩

/-- C9: `try_undef_non_decorator_codes` is not atomic over the two
mappings: when it returns false, the non-decorator list is unchanged,
yet the codes of some prefix of that list have already been removed
(each removal returned true) and the resulting mappings reflect exactly
those removals, with the failing code left in place. -/
theorem c9_clear_not_atomic (s : FcodeCore)
    (h : (try_undef_non_decorator_codes s).1 = false) :
    ((try_undef_non_decorator_codes s).2).non_decorator_codes =
      s.non_decorator_codes ∧
    ∃ pre c post,
      s.non_decorator_codes = pre ++ c :: post ∧
      undefEach pre s = (true, removeAllState s pre) ∧
      (try_undefcode (removeAllState s pre) c).1 = false ∧
      (try_undef_non_decorator_codes s).2 = removeAllState s pre := by
  rcases tundc_false_char h with ⟨hstate, hfalse⟩
  rcases undefEach_false_decomp hfalse with ⟨pre, c, post, hl, htrue, hfail, hs⟩
  constructor
  · rw [hstate, undefEach_ndc]
  · exact ⟨pre, c, post, hl, htrue, hfail, by rw [hstate, hs]⟩

/-- Witness for C9: the removal of `"a"` succeeds, the removal of `"x"`
fails, the call returns false, and the intermediate removal has already
happened. -/
theorem c9_clear_not_atomic_witness :
    (try_undef_non_decorator_codes c9State).1 = false ∧
      (((try_undef_non_decorator_codes c9State).2).non_decorator_codes =
        c9State.non_decorator_codes ∧
      ∃ pre c post,
        c9State.non_decorator_codes = pre ++ c :: post ∧
        undefEach pre c9State = (true, removeAllState c9State pre) ∧
        (try_undefcode (removeAllState c9State pre) c).1 = false ∧
        (try_undef_non_decorator_codes c9State).2 =
          removeAllState c9State pre) :=
  ⟨by decide, c9_clear_not_atomic c9State (by decide)⟩

/-- C10: a legacy-codes list that repeats a fresh code `c` (as `[c, c]`)
is accepted — duplicates are only checked against previously registered
legacy codes, not within the list — and afterwards `c` appears exactly
once in the legacy mapping, mapped to the registered type. -/
theorem c10_duplicate_legacy_within_list_accepted (s : FcodeCore)
    (code c : Code) (t : Ty)
    (hlock : s.deflock = false)
    (hact : dictContains s.active_code_to_type code = false)
    (hleg : dictContains s.legacy_code_to_type c = false) :
    (defcode s code t (some [c, c]) false).1 = none ∧
      dictGet? ((defcode s code t (some [c, c]) false).2).legacy_code_to_type
        c = some t ∧
      ((((defcode s code t (some [c, c]) false).2).legacy_code_to_type).filter
        (fun p => p.1 == c)).length = 1 := by
  have hcol : collectLegacyCodes s.legacy_code_to_type
      ((some [c, c]).getD []) = Except.ok [c, c] := by
    apply collectLegacyCodes_of_fresh
    intro x hx
    have hxc : x = c := by simpa using hx
    rw [hxc]
    exact hleg
  have hfold : ([c, c].foldl (fun d lc => dictSet d lc t)
      s.legacy_code_to_type) = s.legacy_code_to_type ++ [(c, t)] := by
    simp only [List.foldl_cons, List.foldl_nil]
    rw [dictSet_of_fresh hleg, dictSet_append_self hleg]
  have hfilter : s.legacy_code_to_type.filter (fun p => p.1 == c) = [] := by
    rw [List.filter_eq_nil_iff]
    intro p hp
    simpa using dictContains_false_iff.mp hleg p hp
  rw [defcode_of_collect_ok hlock hact hcol]
  refine ⟨rfl, ?_, ?_⟩
  · change dictGet? ([c, c].foldl (fun d lc => dictSet d lc t)
      s.legacy_code_to_type) c = some t
    rw [hfold]
    exact dictGet?_append_fresh hleg
  · change (([c, c].foldl (fun d lc => dictSet d lc t)
      s.legacy_code_to_type).filter (fun p => p.1 == c)).length = 1
    rw [hfold, List.filter_append, hfilter]
    simp

/-- Witness for C10 at a concrete registration with `["x", "x"]`. -/
theorem c10_duplicate_legacy_within_list_accepted_witness :
    (defcode FcodeCore.init "a" 1 (some ["x", "x"]) false).1 = none ∧
      dictGet? ((defcode FcodeCore.init "a" 1
        (some ["x", "x"]) false).2).legacy_code_to_type "x" = some 1 ∧
      ((((defcode FcodeCore.init "a" 1
        (some ["x", "x"]) false).2).legacy_code_to_type).filter
        (fun p => p.1 == "x")).length = 1 :=
  c10_duplicate_legacy_within_list_accepted FcodeCore.init "a" "x" 1 rfl rfl
    rfl
